import Mathlib

/-
Verification of the Wide and Deep recommendation model defined in
recommenders/models/wide_deep/wide_deep_utils.py.

Shallow embedding conventions:
  - tensors of floats become lists of rationals (List Rat); a batch matrix is a
    list of rows (List (List Rat));
  - index tensors (torch long) become lists of naturals;
  - the final Sigmoid layer maps into the reals, so model outputs are List (List Real);
  - fallible tensor operations (embedding lookup out of range, dict key lookup,
    torch.cat of mismatched or None arguments) return Except TorchError;
  - the randomness of dropout in training mode is made explicit as a mask
    argument (layer index -> element index -> dropped or not), and the
    train/eval mode flag of nn.Module is an explicit Bool argument;
  - the random initialization performed at construction time is made explicit
    as an InitRandomness record of entry generators.
-/

namespace WideDeep

/-- Errors raised by the translated forward pass: KeyError from the Python dict
lookup, IndexError from an embedding lookup out of range, TypeError from
torch.cat applied to None, and shape mismatch errors from torch.cat. -/
inductive TorchError where
  | keyError (k : String)
  | indexError
  | typeError
  | shapeError
deriving DecidableEq, Repr

/-- Hyperparameters, translated from the frozen dataclass WideAndDeepHyperParams.
The Python dict dnn_additional_embeddings_sizes is rendered as an association
list in insertion order (ModuleDict preserves that order). -/
structure WideAndDeepHyperParams where
  user_dim : Nat := 32
  item_dim : Nat := 32
  crossed_feat_dim : Nat := 1000
  dnn_hidden_units : List Nat := [128, 128]
  dnn_dropout : Rat := 0
  dnn_additional_embeddings_sizes : List (String × Nat × Nat) := []
  dnn_cont_features : Nat := 0
deriving DecidableEq, Repr

/-- nn.Embedding: a lookup table of num_embeddings rows, each of width
embedding_dim. -/
structure Embedding where
  num_embeddings : Nat
  embedding_dim : Nat
  weight : List (List Rat)
deriving DecidableEq, Repr

/-- nn.Linear(in_features, out_features): records its input width, as the
torch module does; weight has one row per output feature (each of width
in_features), bias one entry per output feature. -/
structure Linear where
  in_features : Nat
  weight : List (List Rat)
  bias : List Rat
deriving DecidableEq, Repr

/-- A layer of the nn.Sequential deep stack. -/
inductive Layer where
  | linear (l : Linear)
  | dropout (p : Rat)
  | relu
deriving DecidableEq, Repr

/-- Source of the random numbers drawn at construction time (framework default
initializers for user/item embeddings and linear layers, uniform [-1,1] for the
additional embeddings); each field generates one entry from its indices. -/
structure InitRandomness where
  users_emb_init : Nat → Nat → Rat
  items_emb_init : Nat → Nat → Rat
  additional_emb_init : String → Nat → Nat → Rat
  linear_weight_init : Nat → Nat → Nat → Rat
  linear_bias_init : Nat → Nat → Rat
  head_weight_init : Nat → Nat → Rat
  head_bias_init : Nat → Rat

/-- A rows x cols matrix filled by an entry generator. -/
def mkMat (f : Nat → Nat → Rat) (rows cols : Nat) : List (List Rat) :=
  (List.range rows).map fun i => (List.range cols).map fun j => f i j

/-- Allocate an nn.Embedding(num, dim) with explicit initial entries. -/
def Embedding.make (f : Nat → Nat → Rat) (num dim : Nat) : Embedding :=
  { num_embeddings := num, embedding_dim := dim, weight := mkMat f num dim }

/-- The loop of WideAndDeepModel.__init__ that builds the deep stack: for each
hidden width hu it appends nn.Linear(prev, hu), nn.Dropout(p), nn.ReLU and sets
prev to hu; returns the layer list together with the final prev_output. -/
def buildDeepFrom (p : Rat) (r : InitRandomness) (idx prev : Nat) :
    List Nat → List Layer × Nat
  | [] => ([], prev)
  | hu :: rest =>
    let lin : Linear :=
      { in_features := prev,
        weight := mkMat (r.linear_weight_init idx) hu prev,
        bias := (List.range hu).map (r.linear_bias_init idx) }
    let tail := buildDeepFrom p r (idx + 1) hu rest
    (Layer.linear lin :: Layer.dropout p :: Layer.relu :: tail.1, tail.2)

/-- The model parameters and configuration held by a WideAndDeepModel
instance. The head field is the Linear layer of the head; the Sigmoid that
follows it in nn.Sequential is applied in forward. -/
structure WideAndDeepModel where
  hparams : WideAndDeepHyperParams
  n_users : Nat
  n_items : Nat
  users_emb : Embedding
  items_emb : Embedding
  additional_embs : List (String × Embedding)
  deep : List Layer
  head : Linear
deriving DecidableEq, Repr

/-- WideAndDeepModel.__init__: allocates the user, item and additional
embedding tables, builds the deep stack from dnn_hidden_units, and allocates
the head Linear over crossed_feat_dim + prev_output inputs. -/
def WideAndDeepModel.init (num_users num_items : Nat)
    (hp : WideAndDeepHyperParams) (r : InitRandomness) : WideAndDeepModel :=
  let users_emb := Embedding.make r.users_emb_init num_users hp.user_dim
  let items_emb := Embedding.make r.items_emb_init num_items hp.item_dim
  let additional_embs := hp.dnn_additional_embeddings_sizes.map fun kv =>
    (kv.1, Embedding.make (r.additional_emb_init kv.1) kv.2.1 kv.2.2)
  let total_emb_dim := hp.user_dim + hp.item_dim +
    (additional_embs.map fun ke => ke.2.embedding_dim).sum
  let dp := buildDeepFrom hp.dnn_dropout r 0
    (hp.dnn_cont_features + total_emb_dim) hp.dnn_hidden_units
  { hparams := hp
    n_users := num_users
    n_items := num_items
    users_emb := users_emb
    items_emb := items_emb
    additional_embs := additional_embs
    deep := dp.1
    head :=
      { in_features := hp.crossed_feat_dim + dp.2,
        weight := mkMat r.head_weight_init 1 (hp.crossed_feat_dim + dp.2),
        bias := [r.head_bias_init 0] } }

/-- Batched embedding lookup, emb(indices): one weight row per index, an out of
range index raises IndexError. -/
def Embedding.lookupBatch (e : Embedding) : List Nat → Except TorchError (List (List Rat))
  | [] => .ok []
  | i :: is =>
    match e.weight.get? i with
    | none => .error .indexError
    | some row =>
      match e.lookupBatch is with
      | .error err => .error err
      | .ok rows => .ok (row :: rows)

/-- Python dict lookup on the additional_embeddings argument. -/
def assocLookup {α : Type} : List (String × α) → String → Option α
  | [], _ => none
  | kv :: rest, k => if kv.1 = k then some kv.2 else assocLookup rest k

/-- The generator [ emb(additional_embeddings[k]) for k, emb in
self.additional_embs.items() ]: a missing key raises KeyError k, and each
lookup can raise IndexError. -/
def lookupAdditional : List (String × Embedding) → List (String × List Nat) →
    Except TorchError (List (List (List Rat)))
  | [], _ => .ok []
  | ke :: rest, adds =>
    match assocLookup adds ke.1 with
    | none => .error (.keyError ke.1)
    | some idxs =>
      match ke.2.lookupBatch idxs with
      | .error err => .error err
      | .ok rows =>
        match lookupAdditional rest adds with
        | .error err => .error err
        | .ok mats => .ok (rows :: mats)

/-- torch.cat([a, b], dim=1): rows are concatenated pairwise; a mismatch in the
number of rows raises a shape error. -/
def cat2 (a b : List (List Rat)) : Except TorchError (List (List Rat)) :=
  if a.length = b.length then .ok (List.zipWith (· ++ ·) a b) else .error .shapeError

/-- torch.cat(mats, dim=1) over a nonempty list of matrices. -/
def catList : List (List (List Rat)) → Except TorchError (List (List Rat))
  | [] => .error .shapeError
  | [a] => .ok a
  | a :: rest =>
    match catList rest with
    | .error err => .error err
    | .ok b => cat2 a b

/-- Dot product of two rows. -/
def dot (xs ys : List Rat) : Rat := (List.zipWith (· * ·) xs ys).sum

/-- nn.Linear application to one example row: the underlying matmul raises a
shape error unless the row width equals in_features. -/
def Linear.apply (l : Linear) (x : List Rat) : Except TorchError (List Rat) :=
  if x.length = l.in_features then
    .ok (List.zipWith (fun row b => dot row x + b) l.weight l.bias)
  else .error .shapeError

/-- One layer of the deep stack applied to one example row. In training mode
nn.Dropout zeroes each entry the mask selects and scales the rest by
1/(1-p); in eval mode it is the identity; only the Linear layer can fail. -/
def Layer.apply (training : Bool) (mask : Nat → Bool) :
    Layer → List Rat → Except TorchError (List Rat)
  | .linear l, x => l.apply x
  | .dropout p, x =>
    .ok (if training then
      (List.range x.length).zipWith (fun i v => if mask i then 0 else v / (1 - p)) x
    else x)
  | .relu, x => .ok (x.map fun v => max v 0)

/-- nn.Sequential application of the deep stack, threading the per-layer
dropout masks by layer position and propagating shape errors. -/
def applyDeepFrom (training : Bool) (mask : Nat → Nat → Bool) (idx : Nat) :
    List Layer → List Rat → Except TorchError (List Rat)
  | [], x => .ok x
  | l :: ls, x =>
    match Layer.apply training (mask idx) l x with
    | .error err => .error err
    | .ok y => applyDeepFrom training mask (idx + 1) ls y

/-- self.deep applied to one example row. -/
def applyDeep (training : Bool) (mask : Nat → Nat → Bool)
    (ls : List Layer) (x : List Rat) : Except TorchError (List Rat) :=
  applyDeepFrom training mask 0 ls x

/-- A fallible row operation applied across a batch matrix: the torch module
is applied to the whole rectangular tensor at once, so one failing row fails
the call. -/
def mapRows (f : List Rat → Except TorchError (List Rat)) :
    List (List Rat) → Except TorchError (List (List Rat))
  | [] => .ok []
  | x :: xs =>
    match f x with
    | .error err => .error err
    | .ok y =>
      match mapRows f xs with
      | .error err => .error err
      | .ok ys => .ok (y :: ys)

/-- The wide cross feature bucket index computed in forward:
(users * self.n_items + items) % self.hparams.crossed_feat_dim. -/
def WideAndDeepModel.cross_product_idx (m : WideAndDeepModel) (u i : Nat) : Nat :=
  (u * m.n_items + i) % m.hparams.crossed_feat_dim

/-- nn.functional.one_hot(i, n) as a row of rationals. -/
def one_hot (i n : Nat) : List Rat :=
  (List.range n).map fun j => if j = i then 1 else 0

/-- The one-hot cross product matrix computed in forward, one row per
interaction. -/
def WideAndDeepModel.crossProductMat (m : WideAndDeepModel)
    (interactions : List (Nat × Nat)) : List (List Rat) :=
  interactions.map fun ui => one_hot (m.cross_product_idx ui.1 ui.2) m.hparams.crossed_feat_dim

/-- WideAndDeepModel.forward up to but excluding the final Sigmoid; the steps
and their order follow the source: embedding lookups and concatenation, the
one-hot cross product, the optional prepending of continuous features, the
deep stack, and the head Linear over the wide and deep concatenation. -/
def WideAndDeepModel.forwardLogits (m : WideAndDeepModel)
    (training : Bool) (mask : Nat → Nat → Bool)
    (interactions : List (Nat × Nat))
    (additional_embeddings : List (String × List Nat))
    (continuous_features : Option (List (List Rat))) :
    Except TorchError (List (List Rat)) :=
  match m.users_emb.lookupBatch (interactions.map Prod.fst) with
  | .error err => .error err
  | .ok userRows =>
  match m.items_emb.lookupBatch (interactions.map Prod.snd) with
  | .error err => .error err
  | .ok itemRows =>
  match lookupAdditional m.additional_embs additional_embeddings with
  | .error err => .error err
  | .ok addRows =>
  match catList (userRows :: itemRows :: addRows) with
  | .error err => .error err
  | .ok all_embed =>
  let cross_product := m.crossProductMat interactions
  match (if 0 < m.hparams.dnn_cont_features then
          match continuous_features with
          | none => Except.error TorchError.typeError
          | some cf => cat2 cf all_embed
         else Except.ok all_embed) with
  | .error err => .error err
  | .ok deep_input =>
  match mapRows (applyDeep training mask m.deep) deep_input with
  | .error err => .error err
  | .ok deep_out =>
  match cat2 cross_product deep_out with
  | .error err => .error err
  | .ok fused => mapRows m.head.apply fused

/-- torch.sigmoid over the reals. -/
noncomputable def sigmoid (x : Rat) : Real := 1 / (1 + Real.exp (-(x : Real)))

/-- WideAndDeepModel.forward: the logits of the head Linear passed through the
Sigmoid layer of the head. -/
noncomputable def WideAndDeepModel.forward (m : WideAndDeepModel)
    (training : Bool) (mask : Nat → Nat → Bool)
    (interactions : List (Nat × Nat))
    (additional_embeddings : List (String × List Nat))
    (continuous_features : Option (List (List Rat))) :
    Except TorchError (List (List Real)) :=
  (m.forwardLogits training mask interactions additional_embeddings
      continuous_features).map fun rows => rows.map fun row => row.map sigmoid

/-- The state-passing form of forward: the method reads the parameter tensors
and never assigns to self, so it returns the model unchanged next to its
result. -/
noncomputable def WideAndDeepModel.forwardS (m : WideAndDeepModel)
    (training : Bool) (mask : Nat → Nat → Bool)
    (interactions : List (Nat × Nat))
    (additional_embeddings : List (String × List Nat))
    (continuous_features : Option (List (List Rat))) :
    Except TorchError (List (List Real)) × WideAndDeepModel :=
  (m.forward training mask interactions additional_embeddings continuous_features, m)

/-- All-zero randomness source, used to instantiate theorems on concrete
models. -/
def rZero : InitRandomness :=
  { users_emb_init := fun _ _ => 0
    items_emb_init := fun _ _ => 0
    additional_emb_init := fun _ _ _ => 0
    linear_weight_init := fun _ _ _ => 0
    linear_bias_init := fun _ _ => 0
    head_weight_init := fun _ _ => 0
    head_bias_init := fun _ => 0 }

/-- Validity of the interaction tensor: every user and item index is within
the corresponding embedding table. -/
def validInteractionsB (m : WideAndDeepModel) (ints : List (Nat × Nat)) : Bool :=
  ints.all fun ui =>
    decide (ui.1 < m.users_emb.weight.length) && decide (ui.2 < m.items_emb.weight.length)

/-- Validity of the additional embeddings argument: every declared feature is
present, with one index per example, all within its table. -/
def validAdditionalB (m : WideAndDeepModel) (n : Nat)
    (adds : List (String × List Nat)) : Bool :=
  m.additional_embs.all fun ke =>
    match assocLookup adds ke.1 with
    | none => false
    | some idxs => decide (idxs.length = n) && idxs.all fun i => decide (i < ke.2.weight.length)

/-- Validity of the continuous features argument: required exactly when
dnn_cont_features is positive, with one row per example and dnn_cont_features
entries per row. -/
def validContB (m : WideAndDeepModel) (n : Nat) (cf : Option (List (List Rat))) : Bool :=
  if 0 < m.hparams.dnn_cont_features then
    match cf with
    | none => false
    | some mat => decide (mat.length = n) &&
        mat.all fun row => decide (row.length = m.hparams.dnn_cont_features)
  else true

/-- Validity of a whole forward input. -/
def validInputB (m : WideAndDeepModel) (ints : List (Nat × Nat))
    (adds : List (String × List Nat)) (cf : Option (List (List Rat))) : Bool :=
  validInteractionsB m ints && validAdditionalB m ints.length adds &&
    validContB m ints.length cf

/-- A minimal hyperparameter record used for concrete instantiations. -/
def hpW2 : WideAndDeepHyperParams :=
  { user_dim := 1, item_dim := 1, crossed_feat_dim := 2, dnn_hidden_units := [],
    dnn_dropout := 0, dnn_additional_embeddings_sizes := [], dnn_cont_features := 0 }

/-- Whether a layer is a Linear layer. -/
def isLinear : Layer → Bool
  | .linear _ => true
  | _ => false

/-- Whether position n of the stack holds a Dropout layer. -/
def isDropoutAt (ls : List Layer) (n : Nat) : Bool :=
  match ls.get? n with
  | some (.dropout _) => true
  | _ => false

/-- Positions of the Linear layers in a stack, in order. -/
def linearPositions : List Layer → List Nat
  | [] => []
  | l :: ls => (if isLinear l then [0] else []) ++ (linearPositions ls).map (· + 1)

/-- The layer layout asserted by the claim: the stack holds exactly k Linear
layers, and a Dropout directly follows a Linear exactly when that Linear is
not the last one. -/
def dropoutAfterAllButLast (ls : List Layer) (k : Nat) : Prop :=
  (linearPositions ls).length = k ∧
  ∀ p ∈ linearPositions ls,
    (isDropoutAt ls (p + 1) = true ↔ some p ≠ (linearPositions ls).getLast?)

/-- A model with one declared additional feature named genre, used for the
missing key scenario. -/
def hpGenre : WideAndDeepHyperParams :=
  { user_dim := 1, item_dim := 1, crossed_feat_dim := 2, dnn_hidden_units := [],
    dnn_dropout := 0, dnn_additional_embeddings_sizes := [("genre", 20, 4)],
    dnn_cont_features := 0 }

theorem one_hot_length (i n : Nat) : (one_hot i n).length = n := by
  simp [one_hot]

theorem one_hot_get_self (i n : Nat) (h : i < n) :
    (one_hot i n).get? i = some 1 := by
  simp only [one_hot, List.get?_eq_getElem?, List.getElem?_map, List.getElem?_range h,
    Option.map_some]
  simp

theorem one_hot_get_other (i j n : Nat) (hj : j < n) (hne : j ≠ i) :
    (one_hot i n).get? j = some 0 := by
  simp only [one_hot, List.get?_eq_getElem?, List.getElem?_map, List.getElem?_range hj,
    Option.map_some]
  simp [hne]

theorem Linear.apply_ok_length (l : Linear) (x y : List Rat)
    (h : l.apply x = Except.ok y) :
    y.length = min l.weight.length l.bias.length := by
  unfold Linear.apply at h
  by_cases hx : x.length = l.in_features
  · rw [if_pos hx] at h
    cases h
    simp
  · rw [if_neg hx] at h
    cases h

theorem Layer.apply_eval_mask (l : Layer) (f g : Nat → Bool) (x : List Rat) :
    Layer.apply false f l x = Layer.apply false g l x := by
  cases l <;> rfl

theorem applyDeepFrom_eval_mask (mask1 mask2 : Nat → Nat → Bool) :
    ∀ (ls : List Layer) (idx1 idx2 : Nat) (x : List Rat),
      applyDeepFrom false mask1 idx1 ls x = applyDeepFrom false mask2 idx2 ls x := by
  intro ls
  induction ls with
  | nil => intro idx1 idx2 x; rfl
  | cons l ls ih =>
    intro idx1 idx2 x
    simp only [applyDeepFrom]
    rw [Layer.apply_eval_mask l (mask1 idx1) (mask2 idx2)]
    cases Layer.apply false (mask2 idx2) l x with
    | error err => rfl
    | ok y => exact ih (idx1 + 1) (idx2 + 1) y

theorem applyDeep_eval_mask (mask1 mask2 : Nat → Nat → Bool) (ls : List Layer) :
    applyDeep false mask1 ls = applyDeep false mask2 ls := by
  funext x
  exact applyDeepFrom_eval_mask mask1 mask2 ls 0 0 x

theorem forwardLogits_eval_mask (m : WideAndDeepModel)
    (mask1 mask2 : Nat → Nat → Bool) (ints : List (Nat × Nat))
    (adds : List (String × List Nat)) (cf : Option (List (List Rat))) :
    m.forwardLogits false mask1 ints adds cf = m.forwardLogits false mask2 ints adds cf := by
  simp only [WideAndDeepModel.forwardLogits]
  rw [applyDeep_eval_mask mask1 mask2 m.deep]

/-- Claim C3: for fixed parameters and a fixed input batch, forward at
inference time (training mode off) is deterministic: its result does not
depend on the dropout randomness, the only source of randomness in the
forward pass, so two calls return identical outputs. -/
theorem wd_C3 (m : WideAndDeepModel) (mask1 mask2 : Nat → Nat → Bool)
    (ints : List (Nat × Nat)) (adds : List (String × List Nat))
    (cf : Option (List (List Rat))) :
    m.forward false mask1 ints adds cf = m.forward false mask2 ints adds cf := by
  unfold WideAndDeepModel.forward
  rw [forwardLogits_eval_mask m mask1 mask2 ints adds cf]

/-- Claim C10: forward only reads the parameter tensors; in state-passing form
it returns the model unchanged, so the user embedding table, the item
embedding table, the additional embedding tables, the deep stack and the head
are all unchanged by a call, whether it succeeds or fails. -/
theorem wd_C10 (m : WideAndDeepModel) (training : Bool) (mask : Nat → Nat → Bool)
    (ints : List (Nat × Nat)) (adds : List (String × List Nat))
    (cf : Option (List (List Rat))) :
    (m.forwardS training mask ints adds cf).2.users_emb = m.users_emb ∧
    (m.forwardS training mask ints adds cf).2.items_emb = m.items_emb ∧
    (m.forwardS training mask ints adds cf).2.additional_embs = m.additional_embs ∧
    (m.forwardS training mask ints adds cf).2.deep = m.deep ∧
    (m.forwardS training mask ints adds cf).2.head = m.head :=
  ⟨rfl, rfl, rfl, rfl, rfl⟩

/-- Claim C6: for all user and item indices, the cross feature bucket index is
in the half open range [0, crossed_feat_dim) whenever crossed_feat_dim is
positive. -/
theorem wd_C6 (nu ni u i : Nat) (hp : WideAndDeepHyperParams) (r : InitRandomness)
    (hpos : 0 < hp.crossed_feat_dim) :
    (WideAndDeepModel.init nu ni hp r).cross_product_idx u i < hp.crossed_feat_dim :=
  Nat.mod_lt _ hpos

theorem wd_C6_witness :
    (0 : Nat) < 7 ∧
      (WideAndDeepModel.init 10 5 { crossed_feat_dim := 7 } rZero).cross_product_idx 9 4 < 7 :=
  ⟨by decide, wd_C6 10 5 9 4 { crossed_feat_dim := 7 } rZero (by decide)⟩

/-- Claim C1: the wide cross feature bucket index is
(user * num_items + item) mod crossed_feat_dim, its one-hot row in the cross
product matrix of the batch has width crossed_feat_dim with a single 1 exactly
at that index, and for num_users=10, num_items=5, crossed_feat_dim=7 the
interaction (3, 4) lands in bucket 5. -/
theorem wd_C1 (nu ni : Nat) (hp : WideAndDeepHyperParams) (r : InitRandomness)
    (m : WideAndDeepModel) (hm : m = WideAndDeepModel.init nu ni hp r)
    (ints : List (Nat × Nat)) (u i : Nat)
    (hmem : (u, i) ∈ ints) (hpos : 0 < hp.crossed_feat_dim) :
    m.cross_product_idx u i = (u * ni + i) % hp.crossed_feat_dim ∧
    one_hot (m.cross_product_idx u i) hp.crossed_feat_dim ∈ m.crossProductMat ints ∧
    (one_hot (m.cross_product_idx u i) hp.crossed_feat_dim).length = hp.crossed_feat_dim ∧
    (one_hot (m.cross_product_idx u i) hp.crossed_feat_dim).get?
      (m.cross_product_idx u i) = some 1 ∧
    (∀ j, j < hp.crossed_feat_dim → j ≠ m.cross_product_idx u i →
      (one_hot (m.cross_product_idx u i) hp.crossed_feat_dim).get? j = some 0) ∧
    (WideAndDeepModel.init 10 5 { hp with crossed_feat_dim := 7 } r).cross_product_idx 3 4 = 5 := by
  subst hm
  have hhp : (WideAndDeepModel.init nu ni hp r).hparams = hp := rfl
  have hni : (WideAndDeepModel.init nu ni hp r).n_items = ni := rfl
  have hidx : (WideAndDeepModel.init nu ni hp r).cross_product_idx u i
      = (u * ni + i) % hp.crossed_feat_dim := rfl
  have hlt : (WideAndDeepModel.init nu ni hp r).cross_product_idx u i < hp.crossed_feat_dim :=
    Nat.mod_lt _ hpos
  refine ⟨hidx, ?_, ?_, ?_, ?_, ?_⟩
  · have := List.mem_map_of_mem
      (fun ui : Nat × Nat => one_hot ((WideAndDeepModel.init nu ni hp r).cross_product_idx ui.1 ui.2)
        (WideAndDeepModel.init nu ni hp r).hparams.crossed_feat_dim) hmem
    simpa [WideAndDeepModel.crossProductMat, hhp] using this
  · exact one_hot_length _ _
  · exact one_hot_get_self _ _ hlt
  · intro j hj hne
    exact one_hot_get_other _ _ _ hj hne
  · simp [WideAndDeepModel.cross_product_idx, WideAndDeepModel.init]

theorem lookupBatch_ok_length (e : Embedding) :
    ∀ (idxs : List Nat) (rows : List (List Rat)),
      e.lookupBatch idxs = Except.ok rows → rows.length = idxs.length := by
  intro idxs
  induction idxs with
  | nil =>
    intro rows h
    simp only [Embedding.lookupBatch] at h
    cases h
    rfl
  | cons i is ih =>
    intro rows h
    simp only [Embedding.lookupBatch] at h
    cases hg : e.weight.get? i with
    | none => rw [hg] at h; cases h
    | some row =>
      rw [hg] at h
      cases hr : e.lookupBatch is with
      | error err => rw [hr] at h; cases h
      | ok rs =>
        rw [hr] at h
        cases h
        simp [ih rs hr]

theorem lookupBatch_ok_of_lt (e : Embedding) :
    ∀ idxs : List Nat, (∀ i ∈ idxs, i < e.weight.length) →
      ∃ rows, e.lookupBatch idxs = Except.ok rows := by
  intro idxs
  induction idxs with
  | nil => intro _; exact ⟨[], rfl⟩
  | cons i is ih =>
    intro hall
    have hg : e.weight.get? i = some (e.weight.get ⟨i, hall i (by simp)⟩) :=
      List.get?_eq_get (hall i (by simp))
    obtain ⟨rows, hrows⟩ := ih fun j hj => hall j (by simp [hj])
    refine ⟨e.weight.get ⟨i, hall i (by simp)⟩ :: rows, ?_⟩
    simp only [Embedding.lookupBatch]
    rw [hg, hrows]

theorem cat2_ok_of_length (a b : List (List Rat)) (h : a.length = b.length) :
    cat2 a b = Except.ok (List.zipWith (· ++ ·) a b) := by
  simp [cat2, h]

theorem cat2_ok_length (a b c : List (List Rat)) (h : cat2 a b = Except.ok c) :
    c.length = a.length ∧ a.length = b.length := by
  by_cases hl : a.length = b.length
  · rw [cat2_ok_of_length a b hl] at h
    cases h
    simp [hl]
  · simp [cat2, hl] at h

theorem catList_ok (n : Nat) :
    ∀ mats : List (List (List Rat)), mats ≠ [] → (∀ mat ∈ mats, mat.length = n) →
      ∃ out, catList mats = Except.ok out ∧ out.length = n := by
  intro mats
  induction mats with
  | nil => intro h; exact absurd rfl h
  | cons a rest ih =>
    intro _ hall
    have ha : a.length = n := hall a (by simp)
    cases rest with
    | nil => exact ⟨a, rfl, ha⟩
    | cons b rs =>
      obtain ⟨out, hout, hlen⟩ := ih (by simp) fun mat hm => hall mat (by simp [hm])
      refine ⟨List.zipWith (· ++ ·) a out, ?_, ?_⟩
      · simp only [catList]
        rw [hout]
        exact cat2_ok_of_length a out (by rw [ha, hlen])
      · simp [ha, hlen]

theorem lookupAdditional_ok (n : Nat) (adds : List (String × List Nat)) :
    ∀ embs : List (String × Embedding),
      (embs.all fun ke =>
        match assocLookup adds ke.1 with
        | none => false
        | some idxs =>
          decide (idxs.length = n) && idxs.all fun i => decide (i < ke.2.weight.length)) = true →
      ∃ mats, lookupAdditional embs adds = Except.ok mats ∧
        ∀ mat ∈ mats, mat.length = n := by
  intro embs
  induction embs with
  | nil => intro _; exact ⟨[], rfl, by simp⟩
  | cons ke rest ih =>
    intro hall
    rw [List.all_cons, Bool.and_eq_true] at hall
    obtain ⟨hke, hrest⟩ := hall
    cases hlk : assocLookup adds ke.1 with
    | none => rw [hlk] at hke; cases hke
    | some idxs =>
      rw [hlk] at hke
      rw [Bool.and_eq_true, decide_eq_true_eq, List.all_eq_true] at hke
      obtain ⟨hlen, hbound⟩ := hke
      obtain ⟨rows, hrows⟩ := lookupBatch_ok_of_lt ke.2 idxs fun i hi => by
        simpa using hbound i hi
      obtain ⟨mats, hmats, hmlen⟩ := ih hrest
      refine ⟨rows :: mats, ?_, ?_⟩
      · simp only [lookupAdditional, hlk, hrows, hmats]
      · intro mat hm
        rcases List.mem_cons.mp hm with h | h
        · rw [h, lookupBatch_ok_length ke.2 idxs rows hrows, hlen]
        · exact hmlen mat h

theorem crossProductMat_length (m : WideAndDeepModel) (ints : List (Nat × Nat)) :
    (m.crossProductMat ints).length = ints.length := by
  simp [WideAndDeepModel.crossProductMat]

theorem validInteractions_user (m : WideAndDeepModel) (ints : List (Nat × Nat))
    (h : validInteractionsB m ints = true) :
    ∀ j ∈ ints.map Prod.fst, j < m.users_emb.weight.length := by
  rw [validInteractionsB, List.all_eq_true] at h
  intro j hj
  obtain ⟨ui, hui, hj2⟩ := List.mem_map.mp hj
  have h2 := h ui hui
  rw [Bool.and_eq_true, decide_eq_true_eq, decide_eq_true_eq] at h2
  exact hj2 ▸ h2.1

theorem validInteractions_item (m : WideAndDeepModel) (ints : List (Nat × Nat))
    (h : validInteractionsB m ints = true) :
    ∀ j ∈ ints.map Prod.snd, j < m.items_emb.weight.length := by
  rw [validInteractionsB, List.all_eq_true] at h
  intro j hj
  obtain ⟨ui, hui, hj2⟩ := List.mem_map.mp hj
  have h2 := h ui hui
  rw [Bool.and_eq_true, decide_eq_true_eq, decide_eq_true_eq] at h2
  exact hj2 ▸ h2.2

theorem mkMat_row_length (f : Nat → Nat → Rat) (rows cols : Nat) :
    ∀ row ∈ mkMat f rows cols, row.length = cols := by
  intro row hrow
  simp only [mkMat, List.mem_map] at hrow
  obtain ⟨i, -, hi⟩ := hrow
  rw [← hi]
  simp

theorem lookupBatch_mem_weight (e : Embedding) :
    ∀ (idxs : List Nat) (rows : List (List Rat)),
      e.lookupBatch idxs = Except.ok rows → ∀ row ∈ rows, row ∈ e.weight := by
  intro idxs
  induction idxs with
  | nil =>
    intro rows h row hrow
    simp only [Embedding.lookupBatch] at h
    cases h
    cases hrow
  | cons i is ih =>
    intro rows h row hrow
    simp only [Embedding.lookupBatch] at h
    cases hg : e.weight.get? i with
    | none => rw [hg] at h; cases h
    | some r0 =>
      rw [hg] at h
      cases hr : e.lookupBatch is with
      | error err => rw [hr] at h; cases h
      | ok rs =>
        rw [hr] at h
        cases h
        rcases List.mem_cons.mp hrow with h0 | h1
        · rw [h0]; exact List.get?_mem hg
        · exact ih rs hr row h1

theorem zipWith_append_row_width (wa wb : Nat) :
    ∀ (a b : List (List Rat)),
      (∀ ra ∈ a, ra.length = wa) → (∀ rb ∈ b, rb.length = wb) →
      ∀ row ∈ List.zipWith (· ++ ·) a b, row.length = wa + wb := by
  intro a
  induction a with
  | nil => intro b _ _ row hrow; cases hrow
  | cons ra as ih =>
    intro b ha hb row hrow
    cases b with
    | nil => cases hrow
    | cons rb bs =>
      rcases List.mem_cons.mp (by simpa using hrow) with h0 | h1
      · rw [h0]
        simp [ha ra (by simp), hb rb (by simp)]
      · exact ih bs (fun z hz => ha z (by simp [hz])) (fun z hz => hb z (by simp [hz])) row h1

theorem catList_row_width :
    ∀ (mats : List (List (List Rat))) (ws : List Nat),
      List.Forall₂ (fun mat w => ∀ row ∈ mat, row.length = w) mats ws →
      ∀ out, catList mats = Except.ok out → ∀ row ∈ out, row.length = ws.sum := by
  intro mats
  induction mats with
  | nil => intro ws _ out hout; cases hout
  | cons a rest ih =>
    intro ws h out hout
    cases h with
    | cons hw htail =>
      cases rest with
      | nil =>
        cases htail
        simp only [catList] at hout
        cases hout
        intro row hrow
        simpa using hw row hrow
      | cons b rs =>
        cases hc : catList (b :: rs) with
        | error err => simp only [catList, hc] at hout; cases hout
        | ok c =>
          simp only [catList, hc] at hout
          have hcw := ih _ htail c hc
          by_cases hl : a.length = c.length
          · rw [cat2_ok_of_length a c hl] at hout
            cases hout
            intro row hrow
            have := zipWith_append_row_width _ _ a c hw hcw row hrow
            simpa using this
          · simp [cat2, hl] at hout

theorem lookupAdditional_forall2 :
    ∀ (embs : List (String × Embedding)) (adds : List (String × List Nat))
      (mats : List (List (List Rat))),
      lookupAdditional embs adds = Except.ok mats →
      List.Forall₂ (fun mat (ke : String × Embedding) =>
        ∀ row ∈ mat, row ∈ ke.2.weight) mats embs := by
  intro embs
  induction embs with
  | nil =>
    intro adds mats h
    simp only [lookupAdditional] at h
    cases h
    exact List.Forall₂.nil
  | cons ke rest ih =>
    intro adds mats h
    simp only [lookupAdditional] at h
    cases hlk : assocLookup adds ke.1 with
    | none => rw [hlk] at h; cases h
    | some idxs =>
      simp only [hlk] at h
      cases hrows : ke.2.lookupBatch idxs with
      | error err => simp only [hrows] at h; cases h
      | ok rows =>
        simp only [hrows] at h
        cases hrec : lookupAdditional rest adds with
        | error err => simp only [hrec] at h; cases h
        | ok mats2 =>
          simp only [hrec] at h
          cases h
          exact List.Forall₂.cons (lookupBatch_mem_weight ke.2 idxs rows hrows)
            (ih adds mats2 hrec)

theorem forall2_width_of_mem :
    ∀ (mats : List (List (List Rat))) (embs : List (String × Embedding)),
      List.Forall₂ (fun mat (ke : String × Embedding) =>
        ∀ row ∈ mat, row ∈ ke.2.weight) mats embs →
      (∀ ke ∈ embs, ∀ row ∈ ke.2.weight, row.length = ke.2.embedding_dim) →
      List.Forall₂ (fun mat w => ∀ row ∈ mat, row.length = w) mats
        (embs.map fun ke => ke.2.embedding_dim) := by
  intro mats embs h
  induction h with
  | nil => intro _; exact List.Forall₂.nil
  | cons hR htail ih =>
    intro hmem
    exact List.Forall₂.cons
      (fun row hrow => hmem _ (by simp) row (hR row hrow))
      (ih fun ke hke => hmem ke (by simp [hke]))

theorem mapRows_ok_length (f : List Rat → Except TorchError (List Rat)) :
    ∀ (xs ys : List (List Rat)), mapRows f xs = Except.ok ys →
      ys.length = xs.length ∧ ∀ y ∈ ys, ∃ x ∈ xs, f x = Except.ok y := by
  intro xs
  induction xs with
  | nil =>
    intro ys h
    simp only [mapRows] at h
    cases h
    exact ⟨rfl, by simp⟩
  | cons x xs ih =>
    intro ys h
    simp only [mapRows] at h
    cases hf : f x with
    | error err => rw [hf] at h; cases h
    | ok y =>
      rw [hf] at h
      cases hm : mapRows f xs with
      | error err => rw [hm] at h; cases h
      | ok ys2 =>
        rw [hm] at h
        cases h
        obtain ⟨hlen, hmem⟩ := ih ys2 hm
        refine ⟨by simp [hlen], ?_⟩
        intro y2 hy2
        rcases List.mem_cons.mp hy2 with h0 | h1
        · exact ⟨x, by simp, h0 ▸ hf⟩
        · obtain ⟨x2, hx2, hfx2⟩ := hmem y2 h1
          exact ⟨x2, by simp [hx2], hfx2⟩

theorem mapRows_ok_of_all (f : List Rat → Except TorchError (List Rat)) :
    ∀ xs : List (List Rat), (∀ x ∈ xs, ∃ y, f x = Except.ok y) →
      ∃ ys, mapRows f xs = Except.ok ys ∧ ys.length = xs.length ∧
        ∀ y ∈ ys, ∃ x ∈ xs, f x = Except.ok y := by
  intro xs
  induction xs with
  | nil => intro _; exact ⟨[], rfl, rfl, by simp⟩
  | cons x xs ih =>
    intro hall
    obtain ⟨y, hy⟩ := hall x (by simp)
    obtain ⟨ys, hys, hlen, hmem⟩ := ih fun x2 hx2 => hall x2 (by simp [hx2])
    refine ⟨y :: ys, ?_, by simp [hlen], ?_⟩
    · simp only [mapRows, hy, hys]
    · intro y2 hy2
      rcases List.mem_cons.mp hy2 with h0 | h1
      · exact ⟨x, by simp, h0 ▸ hy⟩
      · obtain ⟨x2, hx2, hfx2⟩ := hmem y2 h1
        exact ⟨x2, by simp [hx2], hfx2⟩

/-- A stack built by the construction loop consumes a row of exactly its input
width and produces one of exactly its output width prev_output; the dropout
and ReLU layers preserve widths, and each Linear demands its in_features. -/
theorem applyDeepFrom_buildDeepFrom (tr : Bool) (mask : Nat → Nat → Bool)
    (p : Rat) (r : InitRandomness) :
    ∀ (hidden : List Nat) (idx jdx prev : Nat) (x : List Rat), x.length = prev →
      ∃ y, applyDeepFrom tr mask jdx (buildDeepFrom p r idx prev hidden).1 x
          = Except.ok y ∧
        y.length = (buildDeepFrom p r idx prev hidden).2 := by
  intro hidden
  induction hidden with
  | nil => intro idx jdx prev x hx; exact ⟨x, rfl, hx⟩
  | cons hu rest ih =>
    intro idx jdx prev x hx
    have hlin : Linear.apply ⟨prev, mkMat (r.linear_weight_init idx) hu prev,
          (List.range hu).map (r.linear_bias_init idx)⟩ x
        = Except.ok (List.zipWith (fun row b => dot row x + b)
            (mkMat (r.linear_weight_init idx) hu prev)
            ((List.range hu).map (r.linear_bias_init idx))) := by
      simp [Linear.apply, hx]
    have hy1len : (List.zipWith (fun row b => dot row x + b)
        (mkMat (r.linear_weight_init idx) hu prev)
        ((List.range hu).map (r.linear_bias_init idx))).length = hu := by
      simp [mkMat]
    obtain ⟨y, hy, hylen⟩ := ih (idx + 1) (jdx + 1 + 1 + 1) hu
      ((if tr then
          (List.range (List.zipWith (fun row b => dot row x + b)
            (mkMat (r.linear_weight_init idx) hu prev)
            ((List.range hu).map (r.linear_bias_init idx))).length).zipWith
            (fun i v => if mask (jdx + 1) i then 0 else v / (1 - p))
            (List.zipWith (fun row b => dot row x + b)
              (mkMat (r.linear_weight_init idx) hu prev)
              ((List.range hu).map (r.linear_bias_init idx)))
        else
          List.zipWith (fun row b => dot row x + b)
            (mkMat (r.linear_weight_init idx) hu prev)
            ((List.range hu).map (r.linear_bias_init idx))).map fun v => max v 0)
      (by cases tr <;> simp [hy1len])
    refine ⟨y, ?_, hylen⟩
    simp only [buildDeepFrom, applyDeepFrom, Layer.apply, hlin]
    exact hy

theorem crossProductMat_row_width (m : WideAndDeepModel) (ints : List (Nat × Nat)) :
    ∀ row ∈ m.crossProductMat ints, row.length = m.hparams.crossed_feat_dim := by
  intro row hrow
  obtain ⟨ui, -, hui⟩ := List.mem_map.mp hrow
  rw [← hui]
  exact one_hot_length _ _

/-- On a valid input, forward up to the Sigmoid succeeds on a constructed
model, with one output row per interaction: all widths agree by construction,
so no Linear raises a shape error. -/
theorem forwardLogits_ok_of_valid (nu ni : Nat) (hp : WideAndDeepHyperParams)
    (r : InitRandomness) (tr : Bool) (mask : Nat → Nat → Bool)
    (ints : List (Nat × Nat)) (adds : List (String × List Nat))
    (cf : Option (List (List Rat)))
    (h : validInputB (WideAndDeepModel.init nu ni hp r) ints adds cf = true) :
    ∃ out, (WideAndDeepModel.init nu ni hp r).forwardLogits tr mask ints adds cf
        = Except.ok out ∧ out.length = ints.length := by
  set T := hp.user_dim + hp.item_dim +
    (((WideAndDeepModel.init nu ni hp r).additional_embs).map
      fun ke => ke.2.embedding_dim).sum with hT
  set W := hp.dnn_cont_features + T with hW
  set D := (buildDeepFrom hp.dnn_dropout r 0 W hp.dnn_hidden_units).2 with hD
  have hdeep : (WideAndDeepModel.init nu ni hp r).deep
      = (buildDeepFrom hp.dnn_dropout r 0 W hp.dnn_hidden_units).1 := rfl
  have hheadin : (WideAndDeepModel.init nu ni hp r).head.in_features
      = hp.crossed_feat_dim + D := rfl
  have hwu : ∀ row ∈ (WideAndDeepModel.init nu ni hp r).users_emb.weight,
      row.length = hp.user_dim := mkMat_row_length r.users_emb_init nu hp.user_dim
  have hwi : ∀ row ∈ (WideAndDeepModel.init nu ni hp r).items_emb.weight,
      row.length = hp.item_dim := mkMat_row_length r.items_emb_init ni hp.item_dim
  have hwadd : ∀ ke ∈ (WideAndDeepModel.init nu ni hp r).additional_embs,
      ∀ row ∈ ke.2.weight, row.length = ke.2.embedding_dim := by
    intro ke hke
    have hke2 : ke ∈ hp.dnn_additional_embeddings_sizes.map fun kv =>
        (kv.1, Embedding.make (r.additional_emb_init kv.1) kv.2.1 kv.2.2) := hke
    obtain ⟨kv, -, hkv⟩ := List.mem_map.mp hke2
    rw [← hkv]
    exact mkMat_row_length _ _ _
  rw [validInputB, Bool.and_eq_true, Bool.and_eq_true] at h
  obtain ⟨⟨hints, hadds⟩, hcont⟩ := h
  obtain ⟨userRows, hur⟩ := lookupBatch_ok_of_lt
    (WideAndDeepModel.init nu ni hp r).users_emb _
    (validInteractions_user (WideAndDeepModel.init nu ni hp r) ints hints)
  have hurlen : userRows.length = ints.length := by
    have := lookupBatch_ok_length (WideAndDeepModel.init nu ni hp r).users_emb _ _ hur
    simpa using this
  obtain ⟨itemRows, hir⟩ := lookupBatch_ok_of_lt
    (WideAndDeepModel.init nu ni hp r).items_emb _
    (validInteractions_item (WideAndDeepModel.init nu ni hp r) ints hints)
  have hirlen : itemRows.length = ints.length := by
    have := lookupBatch_ok_length (WideAndDeepModel.init nu ni hp r).items_emb _ _ hir
    simpa using this
  rw [validAdditionalB] at hadds
  obtain ⟨addRows, har, harlen⟩ := lookupAdditional_ok ints.length adds
    (WideAndDeepModel.init nu ni hp r).additional_embs hadds
  obtain ⟨all_embed, hae, haelen⟩ := catList_ok ints.length
    (userRows :: itemRows :: addRows)
    (by simp) (by
      intro mat hm
      rcases List.mem_cons.mp hm with h1 | hm2
      · rw [h1]; exact hurlen
      rcases List.mem_cons.mp hm2 with h2 | h3
      · rw [h2]; exact hirlen
      · exact harlen mat h3)
  have hwall : ∀ row ∈ all_embed, row.length = T := by
    have hf2 := forall2_width_of_mem addRows _
      (lookupAdditional_forall2 _ adds addRows har) hwadd
    have hcw := catList_row_width (userRows :: itemRows :: addRows)
      (hp.user_dim :: hp.item_dim ::
        (((WideAndDeepModel.init nu ni hp r).additional_embs).map
          fun ke => ke.2.embedding_dim))
      (List.Forall₂.cons
        (fun row hrow => hwu row (lookupBatch_mem_weight _ _ _ hur row hrow))
        (List.Forall₂.cons
          (fun row hrow => hwi row (lookupBatch_mem_weight _ _ _ hir row hrow))
          hf2))
      all_embed hae
    intro row hrow
    have := hcw row hrow
    rw [hT]
    simp only [List.sum_cons] at this
    omega
  have hdeepok : ∀ x : List Rat, x.length = W →
      ∃ y, applyDeep tr mask (WideAndDeepModel.init nu ni hp r).deep x
          = Except.ok y ∧ y.length = D := by
    intro x hxw
    obtain ⟨y, hy, hylen⟩ := applyDeepFrom_buildDeepFrom tr mask hp.dnn_dropout r
      hp.dnn_hidden_units 0 0 W x hxw
    refine ⟨y, ?_, by rw [hD]; exact hylen⟩
    unfold applyDeep
    rw [hdeep]
    exact hy
  have hfinish : ∀ deep_input : List (List Rat),
      deep_input.length = ints.length → (∀ row ∈ deep_input, row.length = W) →
      ∃ out,
        (match mapRows (applyDeep tr mask (WideAndDeepModel.init nu ni hp r).deep)
            deep_input with
          | Except.error err => Except.error err
          | Except.ok deep_out =>
            match cat2 ((WideAndDeepModel.init nu ni hp r).crossProductMat ints)
                deep_out with
            | Except.error err => Except.error err
            | Except.ok fused => mapRows (WideAndDeepModel.init nu ni hp r).head.apply fused)
          = Except.ok out ∧ out.length = ints.length := by
    intro deep_input hdilen hdiw
    obtain ⟨deep_out, hdo, hdolen, hdomem⟩ := mapRows_ok_of_all
      (applyDeep tr mask (WideAndDeepModel.init nu ni hp r).deep) deep_input
      (fun x hx => by
        obtain ⟨y, hy, -⟩ := hdeepok x (hdiw x hx)
        exact ⟨y, hy⟩)
    have hwdo : ∀ y ∈ deep_out, y.length = D := by
      intro y hy
      obtain ⟨x, hx, hfx⟩ := hdomem y hy
      obtain ⟨y2, hy2, hy2len⟩ := hdeepok x (hdiw x hx)
      rw [hfx] at hy2
      cases hy2
      exact hy2len
    have hfuse := cat2_ok_of_length
      ((WideAndDeepModel.init nu ni hp r).crossProductMat ints) deep_out
      (by rw [crossProductMat_length, hdolen, hdilen])
    have hwf : ∀ row ∈ List.zipWith (· ++ ·)
        ((WideAndDeepModel.init nu ni hp r).crossProductMat ints) deep_out,
        row.length = hp.crossed_feat_dim + D :=
      zipWith_append_row_width hp.crossed_feat_dim D _ deep_out
        (crossProductMat_row_width (WideAndDeepModel.init nu ni hp r) ints) hwdo
    obtain ⟨out, hout, houtlen, -⟩ := mapRows_ok_of_all
      ((WideAndDeepModel.init nu ni hp r).head.apply)
      (List.zipWith (· ++ ·)
        ((WideAndDeepModel.init nu ni hp r).crossProductMat ints) deep_out)
      (fun x hx => by
        have hxlen : x.length = (WideAndDeepModel.init nu ni hp r).head.in_features := by
          rw [hwf x hx, hheadin]
        simp only [Linear.apply]
        rw [if_pos hxlen]
        exact ⟨_, rfl⟩)
    refine ⟨out, ?_, ?_⟩
    · simp only [hdo, hfuse, hout]
    · rw [houtlen]
      simp [crossProductMat_length, hdolen, hdilen]
  by_cases hpos : 0 < hp.dnn_cont_features
  · have hpos2 : 0 < (WideAndDeepModel.init nu ni hp r).hparams.dnn_cont_features := hpos
    unfold validContB at hcont
    rw [if_pos hpos2] at hcont
    cases cf with
    | none => cases hcont
    | some mat =>
      rw [Bool.and_eq_true, decide_eq_true_eq, List.all_eq_true] at hcont
      obtain ⟨hclen, hcwb⟩ := hcont
      have hcw : ∀ row ∈ mat, row.length = hp.dnn_cont_features := by
        intro row hrow
        have := hcwb row hrow
        simpa using this
      have hcat := cat2_ok_of_length mat all_embed (by rw [hclen, haelen])
      obtain ⟨out, hout, houtlen⟩ := hfinish (List.zipWith (· ++ ·) mat all_embed)
        (by simp [hclen, haelen])
        (fun row hrow => by
          rw [hW]
          exact zipWith_append_row_width hp.dnn_cont_features T mat all_embed
            hcw hwall row hrow)
      refine ⟨out, ?_, houtlen⟩
      simp only [WideAndDeepModel.forwardLogits, hur, hir, har, hae, if_pos hpos2, hcat]
      exact hout
  · have hc0 : hp.dnn_cont_features = 0 := Nat.eq_zero_of_not_pos hpos
    have hpos2 : ¬ 0 < (WideAndDeepModel.init nu ni hp r).hparams.dnn_cont_features := hpos
    obtain ⟨out, hout, houtlen⟩ := hfinish all_embed haelen
      (fun row hrow => by
        rw [hW, hc0]
        simpa using hwall row hrow)
    refine ⟨out, ?_, houtlen⟩
    simp only [WideAndDeepModel.forwardLogits, hur, hir, har, hae, if_neg hpos2]
    exact hout

/-- Any accepted batch yields one output row per interaction, each of the
width given by the head Linear. -/
theorem forwardLogits_ok_shape (m : WideAndDeepModel) (tr : Bool)
    (mask : Nat → Nat → Bool) (ints : List (Nat × Nat))
    (adds : List (String × List Nat)) (cf : Option (List (List Rat)))
    (out : List (List Rat))
    (h : m.forwardLogits tr mask ints adds cf = Except.ok out) :
    out.length = ints.length ∧
      ∀ row ∈ out, row.length = min m.head.weight.length m.head.bias.length := by
  simp only [WideAndDeepModel.forwardLogits] at h
  cases hu : m.users_emb.lookupBatch (ints.map Prod.fst) with
  | error e1 => simp only [hu] at h; cases h
  | ok userRows =>
  simp only [hu] at h
  cases hi : m.items_emb.lookupBatch (ints.map Prod.snd) with
  | error e2 => simp only [hi] at h; cases h
  | ok itemRows =>
  simp only [hi] at h
  cases ha : lookupAdditional m.additional_embs adds with
  | error e3 => simp only [ha] at h; cases h
  | ok addRows =>
  simp only [ha] at h
  cases hc : catList (userRows :: itemRows :: addRows) with
  | error e4 => simp only [hc] at h; cases h
  | ok all_embed =>
  simp only [hc] at h
  cases hd : (if 0 < m.hparams.dnn_cont_features then
      match cf with
      | none => Except.error TorchError.typeError
      | some cfm => cat2 cfm all_embed
    else Except.ok all_embed) with
  | error e5 => simp only [hd] at h; cases h
  | ok deep_input =>
  simp only [hd] at h
  cases hmr : mapRows (applyDeep tr mask m.deep) deep_input with
  | error e6 => simp only [hmr] at h; cases h
  | ok deep_out =>
  simp only [hmr] at h
  cases hf : cat2 (m.crossProductMat ints) deep_out with
  | error e7 => simp only [hf] at h; cases h
  | ok fused =>
  simp only [hf] at h
  have hflen : fused.length = ints.length := by
    rw [(cat2_ok_length _ _ _ hf).1, crossProductMat_length]
  obtain ⟨hlen, hmem⟩ := mapRows_ok_length m.head.apply fused out h
  constructor
  · rw [hlen, hflen]
  · intro row hrow
    obtain ⟨x, -, hx⟩ := hmem row hrow
    exact Linear.apply_ok_length m.head x row hx

theorem sigmoid_pos (x : Rat) : 0 < sigmoid x := by
  unfold sigmoid
  positivity

theorem sigmoid_lt_one (x : Rat) : sigmoid x < 1 := by
  unfold sigmoid
  rw [div_lt_one (by positivity)]
  simpa using Real.exp_pos (-(x : Real))

/-- Claim C2: every batch accepted by forward yields a tensor of shape
(batch size, 1), and every entry lies strictly between 0 and 1. -/
theorem wd_C2 (nu ni : Nat) (hp : WideAndDeepHyperParams) (r : InitRandomness)
    (tr : Bool) (mask : Nat → Nat → Bool) (ints : List (Nat × Nat))
    (adds : List (String × List Nat)) (cf : Option (List (List Rat)))
    (out : List (List Real))
    (hout : (WideAndDeepModel.init nu ni hp r).forward tr mask ints adds cf = Except.ok out) :
    out.length = ints.length ∧
      ∀ row ∈ out, row.length = 1 ∧ ∀ v ∈ row, 0 < v ∧ v < 1 := by
  unfold WideAndDeepModel.forward at hout
  cases hlg : (WideAndDeepModel.init nu ni hp r).forwardLogits tr mask ints adds cf with
  | error e => rw [hlg] at hout; cases hout
  | ok lg =>
    rw [hlg] at hout
    simp only [Except.map] at hout
    cases hout
    obtain ⟨hlen, hrows⟩ := forwardLogits_ok_shape _ tr mask ints adds cf lg hlg
    have hhead : min (WideAndDeepModel.init nu ni hp r).head.weight.length
        (WideAndDeepModel.init nu ni hp r).head.bias.length = 1 := by
      simp [WideAndDeepModel.init, mkMat]
    constructor
    · simp [hlen]
    · intro row hrow
      obtain ⟨qrow, hq, hqe⟩ := List.mem_map.mp hrow
      constructor
      · rw [← hqe]
        simp [hrows qrow hq, hhead]
      · intro v hv
        rw [← hqe] at hv
        obtain ⟨q, _, hqv⟩ := List.mem_map.mp hv
        rw [← hqv]
        exact ⟨sigmoid_pos q, sigmoid_lt_one q⟩

theorem wd_C2_witness :
    ([[sigmoid 0]] : List (List Real)).length = [((1 : Nat), (2 : Nat))].length ∧
      ∀ row ∈ ([[sigmoid 0]] : List (List Real)),
        row.length = 1 ∧ ∀ v ∈ row, 0 < v ∧ v < 1 :=
  wd_C2 2 3 hpW2 rZero false (fun _ _ => false) [(1, 2)] [] none [[sigmoid 0]] (by
    have h : (WideAndDeepModel.init 2 3 hpW2 rZero).forwardLogits false
        (fun _ _ => false) [(1, 2)] [] none = Except.ok [[0]] := by
      norm_num [WideAndDeepModel.forwardLogits, WideAndDeepModel.init, Embedding.make,
        mkMat, Embedding.lookupBatch, lookupAdditional, catList, cat2, applyDeep,
        applyDeepFrom, Layer.apply, mapRows, Linear.apply, dot,
        WideAndDeepModel.crossProductMat, WideAndDeepModel.cross_product_idx, one_hot,
        hpW2, rZero, List.range_succ, buildDeepFrom,
        show List.replicate 4 (0 : Rat) = [0, 0, 0, 0] from rfl]
    unfold WideAndDeepModel.forward
    rw [h]
    rfl)

/-- Claim C5: with dnn_hidden_units empty, construction yields an empty deep
stack, that stack is the identity on any row, and forward still succeeds end
to end on any valid batch. -/
theorem wd_C5 (nu ni : Nat) (hp : WideAndDeepHyperParams) (r : InitRandomness)
    (tr : Bool) (mask : Nat → Nat → Bool) (ints : List (Nat × Nat))
    (adds : List (String × List Nat)) (cf : Option (List (List Rat)))
    (hempty : hp.dnn_hidden_units = [])
    (hvalid : validInputB (WideAndDeepModel.init nu ni hp r) ints adds cf = true) :
    (WideAndDeepModel.init nu ni hp r).deep = [] ∧
    (∀ x, applyDeep tr mask (WideAndDeepModel.init nu ni hp r).deep x = Except.ok x) ∧
    ∃ out, (WideAndDeepModel.init nu ni hp r).forward tr mask ints adds cf
      = Except.ok out := by
  have hdeep : (WideAndDeepModel.init nu ni hp r).deep = [] := by
    simp [WideAndDeepModel.init, hempty, buildDeepFrom]
  refine ⟨hdeep, ?_, ?_⟩
  · intro x
    rw [hdeep]
    rfl
  · obtain ⟨out, hout, -⟩ :=
      forwardLogits_ok_of_valid nu ni hp r tr mask ints adds cf hvalid
    refine ⟨out.map fun row => row.map sigmoid, ?_⟩
    unfold WideAndDeepModel.forward
    rw [hout]
    rfl

theorem wd_C5_witness :
    hpW2.dnn_hidden_units = [] ∧
    validInputB (WideAndDeepModel.init 2 3 hpW2 rZero) [(0, 1)] [] none = true ∧
    (WideAndDeepModel.init 2 3 hpW2 rZero).deep = [] :=
  ⟨by decide, by decide,
    (wd_C5 2 3 hpW2 rZero false (fun _ _ => false) [(0, 1)] [] none
      (by decide) (by decide)).1⟩

/-- Claim C9: when dnn_cont_features is 0, a supplied continuous feature
tensor is ignored (the output equals the output of the same call without it),
and omitting it on a valid batch succeeds. -/
theorem wd_C9 (nu ni : Nat) (hp : WideAndDeepHyperParams) (r : InitRandomness)
    (tr : Bool) (mask : Nat → Nat → Bool)
    (ints : List (Nat × Nat)) (adds : List (String × List Nat))
    (cf : List (List Rat)) (h0 : hp.dnn_cont_features = 0) :
    (WideAndDeepModel.init nu ni hp r).forward tr mask ints adds (some cf)
        = (WideAndDeepModel.init nu ni hp r).forward tr mask ints adds none ∧
    (validInputB (WideAndDeepModel.init nu ni hp r) ints adds none = true →
      ∃ out, (WideAndDeepModel.init nu ni hp r).forward tr mask ints adds none
        = Except.ok out) := by
  constructor
  · have hc : (WideAndDeepModel.init nu ni hp r).hparams.dnn_cont_features = 0 := h0
    unfold WideAndDeepModel.forward WideAndDeepModel.forwardLogits
    simp [hc]
  · intro hv
    obtain ⟨out, hout, -⟩ := forwardLogits_ok_of_valid nu ni hp r tr mask ints adds none hv
    refine ⟨out.map fun row => row.map sigmoid, ?_⟩
    unfold WideAndDeepModel.forward
    rw [hout]
    rfl

theorem wd_C9_witness :
    hpW2.dnn_cont_features = 0 ∧
    (WideAndDeepModel.init 2 3 hpW2 rZero).forward false (fun _ _ => false)
        [(1, 0)] [] (some [[5]])
      = (WideAndDeepModel.init 2 3 hpW2 rZero).forward false (fun _ _ => false)
        [(1, 0)] [] none :=
  ⟨by decide,
    (wd_C9 2 3 hpW2 rZero false (fun _ _ => false)
      [(1, 0)] [] [[5]] (by decide)).1⟩

/-- Claim C8: when dnn_cont_features is positive and no continuous feature
tensor is supplied, forward fails with the TypeError that torch.cat raises on
the None argument, for any batch that passes the embedding stage. -/
theorem wd_C8 (m : WideAndDeepModel) (tr : Bool) (mask : Nat → Nat → Bool)
    (ints : List (Nat × Nat)) (adds : List (String × List Nat))
    (hpos : 0 < m.hparams.dnn_cont_features)
    (hints : validInteractionsB m ints = true)
    (hadds : validAdditionalB m ints.length adds = true) :
    m.forward tr mask ints adds none = Except.error TorchError.typeError := by
  obtain ⟨userRows, hur⟩ :=
    lookupBatch_ok_of_lt m.users_emb _ (validInteractions_user m ints hints)
  have hurlen : userRows.length = ints.length := by
    have := lookupBatch_ok_length m.users_emb _ _ hur
    simpa using this
  obtain ⟨itemRows, hir⟩ :=
    lookupBatch_ok_of_lt m.items_emb _ (validInteractions_item m ints hints)
  have hirlen : itemRows.length = ints.length := by
    have := lookupBatch_ok_length m.items_emb _ _ hir
    simpa using this
  rw [validAdditionalB] at hadds
  obtain ⟨addRows, har, harlen⟩ := lookupAdditional_ok ints.length adds m.additional_embs hadds
  obtain ⟨all_embed, hae, -⟩ := catList_ok ints.length (userRows :: itemRows :: addRows)
    (by simp) (by
      intro mat hm
      rcases List.mem_cons.mp hm with h1 | hm2
      · rw [h1]; exact hurlen
      rcases List.mem_cons.mp hm2 with h2 | h3
      · rw [h2]; exact hirlen
      · exact harlen mat h3)
  unfold WideAndDeepModel.forward WideAndDeepModel.forwardLogits
  simp only [hur, hir, har, hae, if_pos hpos]
  rfl

theorem wd_C8_witness :
    (0 : Nat) <
      (WideAndDeepModel.init 2 3 { hpW2 with dnn_cont_features := 1 } rZero).hparams.dnn_cont_features ∧
    (WideAndDeepModel.init 2 3 { hpW2 with dnn_cont_features := 1 } rZero).forward
        false (fun _ _ => false) [(0, 2)] [] none = Except.error TorchError.typeError :=
  ⟨by decide,
    wd_C8 (WideAndDeepModel.init 2 3 { hpW2 with dnn_cont_features := 1 } rZero)
      false (fun _ _ => false) [(0, 2)] [] (by decide) (by decide) (by decide)⟩

theorem wd_C1_witness :
    ((3, 4) ∈ [((3 : Nat), (4 : Nat))] ∧ (0 : Nat) < 7) ∧
      (WideAndDeepModel.init 10 5 { crossed_feat_dim := 7 } rZero).cross_product_idx 3 4
        = (3 * 5 + 4) % 7 :=
  ⟨⟨by decide, by decide⟩,
    (wd_C1 10 5 { crossed_feat_dim := 7 } rZero _ rfl [(3, 4)] 3 4 (by decide) (by decide)).1⟩

theorem isDropoutAt_cons (a : Layer) (ls : List Layer) (n : Nat) :
    isDropoutAt (a :: ls) (n + 1) = isDropoutAt ls n := rfl

theorem linearPositions_block (lin : Linear) (p : Rat) (tail : List Layer) :
    linearPositions (Layer.linear lin :: Layer.dropout p :: Layer.relu :: tail)
      = 0 :: (((linearPositions tail).map (· + 1)).map (· + 1)).map (· + 1) := rfl

theorem buildDeepFrom_linear_count (p : Rat) (r : InitRandomness) :
    ∀ (hidden : List Nat) (idx prev : Nat),
      (linearPositions (buildDeepFrom p r idx prev hidden).1).length = hidden.length := by
  intro hidden
  induction hidden with
  | nil => intro idx prev; rfl
  | cons hu rest ih =>
    intro idx prev
    simp only [buildDeepFrom]
    rw [linearPositions_block]
    simp [ih (idx + 1) hu]

theorem buildDeepFrom_dropout_follows (p : Rat) (r : InitRandomness) :
    ∀ (hidden : List Nat) (idx prev : Nat),
      ∀ q ∈ linearPositions (buildDeepFrom p r idx prev hidden).1,
        isDropoutAt (buildDeepFrom p r idx prev hidden).1 (q + 1) = true := by
  intro hidden
  induction hidden with
  | nil => intro idx prev q hq; cases hq
  | cons hu rest ih =>
    intro idx prev q hq
    simp only [buildDeepFrom] at hq ⊢
    rw [linearPositions_block] at hq
    rcases List.mem_cons.mp hq with hq0 | hq1
    · rw [hq0]
      rfl
    · obtain ⟨q2, hq2, hqe⟩ := List.mem_map.mp hq1
      obtain ⟨q1, hq1m, hqe1⟩ := List.mem_map.mp hq2
      obtain ⟨q0, hq0m, hqe0⟩ := List.mem_map.mp hq1m
      subst hqe
      subst hqe1
      subst hqe0
      rw [isDropoutAt_cons, isDropoutAt_cons, isDropoutAt_cons]
      exact ih (idx + 1) hu q0 hq0m

/-- Claim C4 as amended: the deep stack built at construction has exactly one
Linear layer per entry of dnn_hidden_units, and a Dropout layer directly
follows every one of them, the last included. -/
theorem wd_C4_amended (nu ni : Nat) (hp : WideAndDeepHyperParams) (r : InitRandomness) :
    (linearPositions (WideAndDeepModel.init nu ni hp r).deep).length
        = hp.dnn_hidden_units.length ∧
    ∀ q ∈ linearPositions (WideAndDeepModel.init nu ni hp r).deep,
      isDropoutAt (WideAndDeepModel.init nu ni hp r).deep (q + 1) = true := by
  have hdeep : (WideAndDeepModel.init nu ni hp r).deep
      = (buildDeepFrom hp.dnn_dropout r 0
          (hp.dnn_cont_features + (hp.user_dim + hp.item_dim +
            ((hp.dnn_additional_embeddings_sizes.map fun kv =>
              (kv.1, Embedding.make (r.additional_emb_init kv.1) kv.2.1 kv.2.2)).map
                fun ke => ke.2.embedding_dim).sum))
          hp.dnn_hidden_units).1 := rfl
  rw [hdeep]
  exact ⟨buildDeepFrom_linear_count hp.dnn_dropout r hp.dnn_hidden_units 0 _,
    buildDeepFrom_dropout_follows hp.dnn_dropout r hp.dnn_hidden_units 0 _⟩

/-- Counterexample to claim C4 as stated: with a single hidden layer the built
stack is Linear, Dropout, ReLU, so a Dropout does follow the last Linear
layer. -/
theorem wd_C4_counterexample :
    ¬ dropoutAfterAllButLast
        (WideAndDeepModel.init 2 2
          { user_dim := 1, item_dim := 1, crossed_feat_dim := 2,
            dnn_hidden_units := [2], dnn_dropout := 1/2,
            dnn_additional_embeddings_sizes := [], dnn_cont_features := 0 }
          rZero).deep 1 := by
  intro h
  have h0 := h.2 0 (by decide)
  have hd : isDropoutAt
      (WideAndDeepModel.init 2 2
        { user_dim := 1, item_dim := 1, crossed_feat_dim := 2,
          dnn_hidden_units := [2], dnn_dropout := 1/2,
          dnn_additional_embeddings_sizes := [], dnn_cont_features := 0 }
        rZero).deep 1 = true := by decide
  have := h0.mp hd
  exact this (by decide)

/-- When every supplied key of the additional embeddings has in range indices
but some declared key is missing, the lookup loop stops at the first missing
key with a KeyError naming it. -/
theorem lookupAdditional_missing (adds : List (String × List Nat)) :
    ∀ embs : List (String × Embedding),
      (∀ ke ∈ embs, ∀ idxs, assocLookup adds ke.1 = some idxs →
        ∃ rows, ke.2.lookupBatch idxs = Except.ok rows) →
      (∃ ke ∈ embs, assocLookup adds ke.1 = none) →
      ∃ k0, (∃ ke ∈ embs, ke.1 = k0) ∧ assocLookup adds k0 = none ∧
        lookupAdditional embs adds = Except.error (TorchError.keyError k0) := by
  intro embs
  induction embs with
  | nil =>
    intro _ hmiss
    obtain ⟨ke, hke, -⟩ := hmiss
    cases hke
  | cons ke rest ih =>
    intro hprov hmiss
    cases hlk : assocLookup adds ke.1 with
    | none =>
      refine ⟨ke.1, ⟨ke, by simp, rfl⟩, hlk, ?_⟩
      simp only [lookupAdditional, hlk]
    | some idxs =>
      obtain ⟨rows, hrows⟩ := hprov ke (by simp) idxs hlk
      have hmiss2 : ∃ ke2 ∈ rest, assocLookup adds ke2.1 = none := by
        obtain ⟨ke2, hke2, hn⟩ := hmiss
        rcases List.mem_cons.mp hke2 with he | hr
        · rw [he, hlk] at hn
          cases hn
        · exact ⟨ke2, hr, hn⟩
      obtain ⟨k0, hk0, hnone, hrec⟩ :=
        ih (fun ke2 h2 => hprov ke2 (by simp [h2])) hmiss2
      refine ⟨k0, ?_, hnone, ?_⟩
      · obtain ⟨ke2, h2, he⟩ := hk0
        exact ⟨ke2, by simp [h2], he⟩
      · simp only [lookupAdditional, hlk, hrows, hrec]

/-- Claim C7: with a declared additional feature missing from the input
mapping (and the rest of the batch passing its checks), forward raises a
KeyError naming a declared missing feature; it never substitutes a default. -/
theorem wd_C7 (m : WideAndDeepModel) (tr : Bool) (mask : Nat → Nat → Bool)
    (ints : List (Nat × Nat)) (adds : List (String × List Nat))
    (cf : Option (List (List Rat)))
    (hints : validInteractionsB m ints = true)
    (hprov : ∀ ke ∈ m.additional_embs, ∀ idxs, assocLookup adds ke.1 = some idxs →
      ∀ i ∈ idxs, i < ke.2.weight.length)
    (hmiss : ∃ ke ∈ m.additional_embs, assocLookup adds ke.1 = none) :
    ∃ k0, (∃ ke ∈ m.additional_embs, ke.1 = k0) ∧ assocLookup adds k0 = none ∧
      m.forward tr mask ints adds cf = Except.error (TorchError.keyError k0) := by
  obtain ⟨userRows, hur⟩ :=
    lookupBatch_ok_of_lt m.users_emb _ (validInteractions_user m ints hints)
  obtain ⟨itemRows, hir⟩ :=
    lookupBatch_ok_of_lt m.items_emb _ (validInteractions_item m ints hints)
  obtain ⟨k0, hk0, hnone, herr⟩ := lookupAdditional_missing adds m.additional_embs
    (fun ke hke idxs hlk => lookupBatch_ok_of_lt ke.2 idxs (hprov ke hke idxs hlk)) hmiss
  refine ⟨k0, hk0, hnone, ?_⟩
  unfold WideAndDeepModel.forward WideAndDeepModel.forwardLogits
  simp only [hur, hir, herr]
  rfl

theorem wd_C7_witness :
    ∃ k0,
      (∃ ke ∈ (WideAndDeepModel.init 2 3 hpGenre rZero).additional_embs, ke.1 = k0) ∧
      assocLookup ([] : List (String × List Nat)) k0 = none ∧
      (WideAndDeepModel.init 2 3 hpGenre rZero).forward false (fun _ _ => false)
        [(0, 0)] [] none = Except.error (TorchError.keyError k0) :=
  wd_C7 (WideAndDeepModel.init 2 3 hpGenre rZero) false (fun _ _ => false)
    [(0, 0)] [] none (by decide)
    (by
      intro ke hke idxs hlk
      simp [assocLookup] at hlk)
    (by
      refine ⟨(("genre"),
        Embedding.make (rZero.additional_emb_init ("genre")) 20 4), ?_, rfl⟩
      decide)

end WideDeep
